import Mathlib

/-!
# Verification of the Fairer Profile Steering coordinator

Shallow embedding of the repository's core:

* `profilesteering.py` — the coordinator (`ProfileSteering.init`, `rerun`,
  `gini`, `iterative`);
* `dev/battery.py`, `dev/load.py`, `dev/electricvehicle.py`,
  `dev/heatpump.py` — the four device families.

Conventions of the embedding:

* Power values are modelled as exact rationals (`ℚ`); the Euclidean norm
  `np.linalg.norm`, whose value is irrational in general, is modelled as a
  real number `Real.sqrt` of a rational sum of squares.
* The coordinator layer treats the numbers reported by devices
  (`candidate_improvement`, `candidate_burden`) as opaque rationals, because
  `profilesteering.py` only adds, divides and compares them.
* The one place where IEEE-754 behaviour is observable in the coordinator —
  the division `candidate_burden / ((1/M)*sum_B)` when `sum_B = 0`, which in
  numpy yields `nan`/`inf` rather than raising — is modelled by the explicit
  extended-value type `FVal` below.
* Python lists are Lean `List`s; `map(operator.add, a, b)` and
  `map(operator.sub, a, b)` truncate to the shorter list exactly like
  `List.zipWith`.
* The device-local optimisation oracle `opt.optAlg` is not part of the
  repository sources given here and is declared external by the design
  document; every embedding of a `plan` method takes it as an opaque
  function argument.
-/

unseal Rat.add Rat.sub Rat.mul Rat.inv Nat.gcd

deriving instance DecidableEq for Except

namespace FairerPS

/-- Elementwise sum of two profiles, `list(map(operator.add, a, b))`.
Like Python's two-iterable `map`, it truncates to the shorter list. -/
def addL (a b : List ℚ) : List ℚ := List.zipWith (· + ·) a b

/-- Elementwise difference of two profiles, `list(map(operator.sub, a, b))`. -/
def subL (a b : List ℚ) : List ℚ := List.zipWith (· - ·) a b

/-- Sum of squares of a profile; `np.linalg.norm v` is `Real.sqrt` of this. -/
def sumSq (v : List ℚ) : ℚ := (v.map (fun a => a * a)).sum

/-- Sum of absolute values; `np.linalg.norm(v, ord=1)`. -/
def sumAbs (v : List ℚ) : ℚ := (v.map (fun a => |a|)).sum

/-- The Euclidean norm `np.linalg.norm v` (2-norm). -/
noncomputable def norm2 (v : List ℚ) : ℝ := Real.sqrt ((sumSq v : ℚ) : ℝ)

/-!
## `ProfileSteering.gini` (profilesteering.py lines 46–53)

```python
def gini(values):
    n = values.size
    if n == 0:
        return 0
    mean = values.mean()
    diff_sum = np.abs(values[:, None] - values).sum()
    denominator = 2 * n**2 * mean
    return diff_sum / denominator if denominator != 0 else 0
```
-/

/-- Embedding of `np.abs(values[:, None] - values).sum()`: the double sum of
`|values[i] - values[j]|` over all `n × n` index pairs. -/
def giniDiffSum (values : List ℚ) : ℚ :=
  (values.map (fun a => (values.map (fun b => |a - b|)).sum)).sum

/-- Embedding of `ProfileSteering.gini`. -/
def gini (values : List ℚ) : ℚ :=
  let n := values.length
  if n = 0 then 0
  else
    let mean := values.sum / n
    let denominator := 2 * (n : ℚ) ^ 2 * mean
    if denominator ≠ 0 then giniDiffSum values / denominator else 0

lemma gini_nil : gini [] = 0 := rfl

lemma giniDiffSum_nonneg (values : List ℚ) : 0 ≤ giniDiffSum values := by
  apply List.sum_nonneg
  intro x hx
  simp only [List.mem_map] at hx
  obtain ⟨a, -, rfl⟩ := hx
  apply List.sum_nonneg
  intro y hy
  simp only [List.mem_map] at hy
  obtain ⟨b, -, rfl⟩ := hy
  exact abs_nonneg _

lemma inner_abs_sum_le (a : ℚ) (l : List ℚ) (ha : 0 ≤ a)
    (hl : ∀ b ∈ l, 0 ≤ b) :
    (l.map (fun b => |a - b|)).sum ≤ l.length * a + l.sum := by
  induction l with
  | nil => simp
  | cons c t ih =>
    have hc : 0 ≤ c := hl c (List.mem_cons_self c t)
    have ht : ∀ b ∈ t, 0 ≤ b := fun b hb => hl b (List.mem_cons_of_mem c hb)
    have habs : |a - c| ≤ a + c :=
      abs_sub_le_iff.mpr ⟨by linarith, by linarith⟩
    have := ih ht
    simp only [List.map_cons, List.sum_cons, List.length_cons]
    push_cast
    linarith

lemma map_linear_sum (c s : ℚ) (l : List ℚ) :
    (l.map (fun a => c * a + s)).sum = c * l.sum + l.length * s := by
  induction l with
  | nil => simp
  | cons x t ih =>
    simp only [List.map_cons, List.sum_cons, List.length_cons, ih]
    push_cast
    ring

lemma giniDiffSum_le (values : List ℚ) (h : ∀ v ∈ values, 0 ≤ v) :
    giniDiffSum values ≤ 2 * values.length * values.sum := by
  unfold giniDiffSum
  have key : ∀ a ∈ values,
      (values.map (fun b => |a - b|)).sum ≤ values.length * a + values.sum :=
    fun a ha => inner_abs_sum_le a values (h a ha) h
  calc (values.map (fun a => (values.map (fun b => |a - b|)).sum)).sum
      ≤ (values.map (fun a => (values.length : ℚ) * a + values.sum)).sum := by
        apply List.sum_le_sum
        intro a ha
        exact key a ha
    _ = 2 * values.length * values.sum := by
        rw [map_linear_sum]
        ring

lemma gini_def (values : List ℚ) :
    gini values = if values.length = 0 then 0 else
      (if 2 * (values.length : ℚ) ^ 2 * (values.sum / values.length) ≠ 0 then
        giniDiffSum values /
          (2 * (values.length : ℚ) ^ 2 * (values.sum / values.length))
      else 0) := rfl

lemma giniDiffSum_replicate (k : ℕ) (v : ℚ) :
    giniDiffSum (List.replicate k v) = 0 := by
  simp [giniDiffSum, List.map_replicate, List.sum_replicate]

lemma gini_nonneg_le_one (values : List ℚ) (hnn : ∀ x ∈ values, 0 ≤ x) :
    0 ≤ gini values ∧ gini values ≤ 1 := by
  rw [gini_def]
  by_cases hn : values.length = 0
  · rw [if_pos hn]
    exact ⟨le_refl 0, zero_le_one⟩
  · rw [if_neg hn]
    have hS : 0 ≤ values.sum := List.sum_nonneg hnn
    by_cases hd : 2 * (values.length : ℚ) ^ 2 * (values.sum / values.length) ≠ 0
    · rw [if_pos hd]
      have hnq : (0 : ℚ) < values.length := by
        exact_mod_cast Nat.pos_of_ne_zero hn
      have hden_eq : 2 * (values.length : ℚ) ^ 2 * (values.sum / values.length)
          = 2 * values.length * values.sum := by
        field_simp
        ring
      have hSpos : 0 < values.sum := by
        rcases lt_or_eq_of_le hS with h | h
        · exact h
        · exfalso
          apply hd
          rw [← h]
          simp
      have hdpos : 0 < 2 * (values.length : ℚ) ^ 2 *
          (values.sum / values.length) := by
        rw [hden_eq]
        positivity
      constructor
      · exact div_nonneg (giniDiffSum_nonneg _) hdpos.le
      · rw [div_le_one hdpos, hden_eq]
        exact giniDiffSum_le values hnn
    · rw [if_neg hd]
      exact ⟨le_refl 0, zero_le_one⟩

/-- C6. `gini` equals `(Σ_i Σ_j |v_i − v_j|) / (2 · n² · m)` for `n`
values with mean `m`; it is `0` when `n = 0` or `m = 0`; for every
nonnegative vector its result lies in `[0, 1]`; and it is `0` on every
constant vector `replicate k v` with `v ≥ 0`. -/
theorem C6_gini_spec (values : List ℚ) (k : ℕ) (v : ℚ) :
    (values.length = 0 → gini values = 0)
    ∧ (values.length ≠ 0 → values.sum / values.length = 0 → gini values = 0)
    ∧ (values.length ≠ 0 → values.sum / values.length ≠ 0 →
        gini values = giniDiffSum values /
          (2 * (values.length : ℚ) ^ 2 * (values.sum / values.length)))
    ∧ ((∀ x ∈ values, 0 ≤ x) → 0 ≤ gini values ∧ gini values ≤ 1)
    ∧ (0 ≤ v → gini (List.replicate k v) = 0) := by
  refine ⟨?_, ?_, ?_, fun hnn => gini_nonneg_le_one values hnn, ?_⟩
  · intro h
    rw [gini_def, if_pos h]
  · intro hn hm
    rw [gini_def, if_neg hn, if_neg]
    rw [hm]
    simp
  · intro hn hm
    have hd : 2 * (values.length : ℚ) ^ 2 * (values.sum / values.length) ≠ 0 := by
      have hq : ((values.length : ℚ)) ≠ 0 := by exact_mod_cast hn
      positivity
    rw [gini_def, if_neg hn, if_pos hd]
  · intro _
    rw [gini_def]
    by_cases hk : (List.replicate k v).length = 0
    · rw [if_pos hk]
    · rw [if_neg hk, giniDiffSum_replicate]
      by_cases hd : 2 * ((List.replicate k v).length : ℚ) ^ 2 *
          ((List.replicate k v).sum / (List.replicate k v).length) ≠ 0
      · rw [if_pos hd, zero_div]
      · rw [if_neg hd]

/-- Witness for C6 at concrete inputs. -/
theorem C6_gini_spec_witness :
    (0 ≤ gini [1, 3] ∧ gini [1, 3] ≤ 1)
    ∧ gini (List.replicate 3 2) = 0 :=
  ⟨(C6_gini_spec [1, 3] 3 2).2.2.2.1 (by decide),
   (C6_gini_spec [1, 3] 3 2).2.2.2.2 (by decide)⟩

/-!
## Coordinator data model (profilesteering.py)
-/

/-- The four device families, distinguished in the source by `self.type`:
`"BL"` (Load), `"BT"` (Battery), `"EV"` (ElectricVehicle),
`"HP"` (HeatPump). -/
inductive Family where
  | BL
  | BT
  | EV
  | HP
  deriving DecidableEq, Repr

/-- Coordinator-facing state of one device object: exactly the attributes of
the Python device objects that `profilesteering.py` reads or writes.  The
numbers a device reports are modelled as exact rationals, since the
coordinator only sums, divides and compares them.  `initial_profile` is an
`Option` because a Python attribute can be missing: `HeatPump.__init__`,
unlike the other three families, never assigns `self.initial_profile`
(modelled as `none`), and no other HeatPump method assigns it either. -/
structure Dev where
  family : Family
  profile : List ℚ
  candidate : List ℚ
  burden : ℚ
  candidate_improvement : ℚ
  candidate_burden : ℚ
  initial_profile : Option (List ℚ)
  deriving DecidableEq, Repr

/-- Coordinator state: the device population, target `p` and aggregate `x`. -/
structure PS where
  devices : List Dev
  p : List ℚ
  x : List ℚ
  deriving DecidableEq, Repr

/-!
## IEEE-754 extended values

The scores of `iterative` are numpy floats.  The only way the loop can leave
the realm of finite numbers is the division
`candidate_burden / ((1/M)*sum_B)` (and its `sum_E` twin) when the
denominator is zero: numpy then produces `inf` / `-inf` / `nan` with a
runtime warning instead of raising.  `FVal` models a float as either a
finite rational or one of those three special values, with the IEEE-754
rules for the operations the loop performs on scores. -/
inductive FVal where
  | negInf
  | fin (q : ℚ)
  | posInf
  | nan
  deriving DecidableEq, Repr

/-- Division of two finite floats: `x / 0` is `±inf` for `x ≠ 0` and `nan`
for `x = 0`. -/
def fdiv (a b : ℚ) : FVal :=
  if b ≠ 0 then .fin (a / b)
  else if 0 < a then .posInf
  else if a < 0 then .negInf
  else .nan

/-- Multiplication of a finite float by an extended value
(`0 * ±inf = nan`). -/
def fmul (c : ℚ) (v : FVal) : FVal :=
  match v with
  | .fin q => .fin (c * q)
  | .nan => .nan
  | .posInf => if 0 < c then .posInf else if c < 0 then .negInf else .nan
  | .negInf => if 0 < c then .negInf else if c < 0 then .posInf else .nan

/-- Subtraction on extended values (`inf - inf = nan`). -/
def fsub (a b : FVal) : FVal :=
  match a, b with
  | .nan, _ => .nan
  | _, .nan => .nan
  | .fin p, .fin q => .fin (p - q)
  | .posInf, .fin _ => .posInf
  | .negInf, .fin _ => .negInf
  | .fin _, .posInf => .negInf
  | .fin _, .negInf => .posInf
  | .posInf, .negInf => .posInf
  | .negInf, .posInf => .negInf
  | .posInf, .posInf => .nan
  | .negInf, .negInf => .nan

/-- IEEE-754 `<` on extended values: every comparison with `nan` is false. -/
def flt (a b : FVal) : Bool :=
  match a, b with
  | .nan, _ => false
  | _, .nan => false
  | .negInf, .negInf => false
  | .negInf, _ => true
  | _, .negInf => false
  | .fin p, .fin q => decide (p < q)
  | .fin _, .posInf => true
  | .posInf, _ => false

/-!
## Round selection (`ProfileSteering.iterative`, lines 81–97)
-/

/-- Line 86: `sum_B = sum(cd.candidate_burden for cd in contributing_devices)`. -/
def sumB (C : List (ℕ × Dev)) : ℚ :=
  (C.map (fun e => e.2.candidate_burden)).sum

/-- Line 87: `sum_E = sum(cd.candidate_improvement for cd in contributing_devices)`. -/
def sumE (C : List (ℕ × Dev)) : ℚ :=
  (C.map (fun e => e.2.candidate_improvement)).sum

/-- Lines 90–92: the score of one contributing device,
`tau*score_pt1 - (1-tau)*score_pt2` with
`score_pt1 = candidate_burden / ((1/M)*sum_B)` and
`score_pt2 = candidate_improvement / ((1/M)*sum_E)`, evaluated with float
semantics. -/
def score (tau sB sE : ℚ) (M : ℕ) (d : Dev) : FVal :=
  fsub (fmul tau (fdiv d.candidate_burden ((1 / (M : ℚ)) * sB)))
    (fmul (1 - tau) (fdiv d.candidate_improvement ((1 / (M : ℚ)) * sE)))

/-- The loop-local trackers of one round: `best_device` (stored with its
index in the population), `best_improvement`, `lowest_score`. -/
structure Sel where
  best : Option (ℕ × Dev)
  best_improvement : ℚ
  lowest : FVal
  deriving DecidableEq, Repr

/-- Lines 93–97: replace the tracked best device when the score is strictly
below the lowest score so far. -/
def selStep (tau sB sE : ℚ) (M : ℕ) (acc : Sel) (e : ℕ × Dev) : Sel :=
  if flt (score tau sB sE M e.2) acc.lowest then
    { best := some e, best_improvement := e.2.candidate_improvement,
      lowest := score tau sB sE M e.2 }
  else acc

/-- Lines 64–66 and 86–97: initialise `best_device = None`,
`best_improvement = 0`, `lowest_score = np.inf`, then fold over the
(already shuffled) contributing devices. -/
def selectDevice (tau : ℚ) (C : List (ℕ × Dev)) : Sel :=
  C.foldl (selStep tau (sumB C) (sumE C) C.length)
    { best := none, best_improvement := 0, lowest := .posInf }

/-!
## The round and the loop (`ProfileSteering.iterative`, lines 55–120)
-/

/-- Lines 68–82: compute `d = x - p` and call `plan(d)` on every device.
The family-specific `plan` bodies are opaque to the coordinator, so the
round is parametric in a `planFn` that maps a device state and the
difference profile to the updated device state. -/
def planPhase (planFn : Dev → List ℚ → Dev) (st : PS) : PS :=
  let d := subL st.x st.p
  { st with devices := st.devices.map (fun dev => planFn dev d) }

/-- Line 84: the contributing devices, i.e. those with
`candidate_improvement > 0`, each paired with its index in the
population — the index stands for Python object identity, so that the
accepted winner is updated in place inside `self.devices`. -/
def contrib (devs : List Dev) : List (ℕ × Dev) :=
  devs.enum.filter (fun e => decide (0 < e.2.candidate_improvement))

/-- Burdens of all non-baseload devices (line 109). -/
def burdensOf (st : PS) : List ℚ :=
  (st.devices.filter (fun dv => decide (dv.family ≠ .BL))).map
    (fun dv => dv.burden)

/-- What one executed round produces: the successor coordinator state, the
winner's population index (if any), `best_improvement`, and the entries
recorded in the objective (stored as the square of the 2-norm,
`‖x − p‖₂²`) and Gini traces. -/
structure RoundOut where
  st : PS
  winner : Option ℕ
  best_improvement : ℚ
  objSq : ℚ
  giniVal : ℚ
  deriving DecidableEq, Repr

/-- Methods `Battery.accept` and `Load.accept`, the two zero-argument accept methods:
`diff = candidate − profile`, `profile := candidate`,
`burden := candidate_burden`, return `diff`. -/
def accept0 (dev : Dev) : Dev × List ℚ :=
  ({ dev with profile := dev.candidate, burden := dev.candidate_burden },
   subL dev.candidate dev.profile)

/-- Methods `ElectricVehicle.accept(b)` and `HeatPump.accept(b)`: these two methods
require a positional burden argument and accumulate it
(`burden := burden + b`). -/
def acceptB (b : ℚ) (dev : Dev) : Dev × List ℚ :=
  ({ dev with profile := dev.candidate, burden := dev.burden + b },
   subL dev.candidate dev.profile)

/-- One round of the loop body (lines 62–111), parametric in the device
implementations: `planFn` for the plan broadcast, `acceptFn` for the single
accept call on the winner, `shuffle` for `random.shuffle`.  After the
optional accept, the objective and Gini trace entries are computed from the
updated state. -/
def roundStep (planFn : Dev → List ℚ → Dev) (acceptFn : Dev → Dev × List ℚ)
    (shuffle : List (ℕ × Dev) → List (ℕ × Dev)) (tau : ℚ) (st : PS) :
    RoundOut :=
  let st1 := planPhase planFn st
  let C := shuffle (contrib st1.devices)
  let sel := selectDevice tau C
  let st2 := match sel.best with
    | none => st1
    | some e =>
      let r := acceptFn e.2
      { st1 with devices := st1.devices.set e.1 r.1, x := addL st1.x r.2 }
  { st := st2
    winner := sel.best.map (fun e => e.1)
    best_improvement := sel.best_improvement
    objSq := sumSq (subL st2.x st2.p)
    giniVal := gini (burdensOf st2) }

/-- The improvement-trace contribution of one round (lines 100–103):
`[best_improvement]` if the round has a winner, nothing otherwise. -/
def impEntryOf (r : RoundOut) : List ℚ :=
  match r.winner with
  | some _ => [r.best_improvement]
  | none => []

/-- The iteration loop (lines 62–116): run up to `n` rounds, appending one
improvement-trace entry only in rounds with a winner and one objective and
one Gini entry in every round, and break after the first round whose
`best_improvement < e_min`. -/
def iterAux (planFn : Dev → List ℚ → Dev) (acceptFn : Dev → Dev × List ℚ)
    (shuffle : List (ℕ × Dev) → List (ℕ × Dev)) (tau e_min : ℚ) :
    PS → ℕ → PS × List ℚ × List ℚ × List ℚ
  | st, 0 => (st, [], [], [])
  | st, n + 1 =>
    let r := roundStep planFn acceptFn shuffle tau st
    if r.best_improvement < e_min then
      (r.st, impEntryOf r, [r.objSq], [r.giniVal])
    else
      let rest := iterAux planFn acceptFn shuffle tau e_min r.st n
      (rest.1, impEntryOf r ++ rest.2.1, r.objSq :: rest.2.2.1,
       r.giniVal :: rest.2.2.2)

/-- Computable core of `ProfileSteering.iterative`: `max_iters` is an
arbitrary integer, and `range(0, max_iters)` has `max_iters.toNat`
elements.  Objective-trace entries are kept as squared 2-norms. -/
def iterativeCore (planFn : Dev → List ℚ → Dev)
    (acceptFn : Dev → Dev × List ℚ)
    (shuffle : List (ℕ × Dev) → List (ℕ × Dev))
    (e_min : ℚ) (max_iters : ℤ) (tau : ℚ) (st : PS) :
    PS × List ℚ × List ℚ × List ℚ :=
  iterAux planFn acceptFn shuffle tau e_min st max_iters.toNat

/-- Embedding of `ProfileSteering.iterative`: as in the source, the objective trace holds
`np.linalg.norm(x − p)`, the square root of the entries computed by
`iterativeCore`.  The loop's control flow never reads these values, so the
function is the computable core with the square root mapped over the
objective trace. -/
noncomputable def iterative (planFn : Dev → List ℚ → Dev)
    (acceptFn : Dev → Dev × List ℚ)
    (shuffle : List (ℕ × Dev) → List (ℕ × Dev))
    (e_min : ℚ) (max_iters : ℤ) (tau : ℚ) (st : PS) :
    PS × List ℚ × List ℝ × List ℚ :=
  let r := iterativeCore planFn acceptFn shuffle e_min max_iters tau st
  (r.1, r.2.1, r.2.2.1.map (fun q => Real.sqrt ((q : ℚ) : ℝ)), r.2.2.2)

/-!
## The actual accept dispatch, `rerun`, and `init` aggregation
-/

/-- The coordinator's call `best_device.accept()` (line 101), resolved
against the family's method: for `ElectricVehicle` and `HeatPump`, whose
`accept` has signature `accept(self, b)`, the zero-argument call raises
`TypeError` before any state is mutated. -/
def callAccept (dev : Dev) : Except String (Dev × List ℚ) :=
  match dev.family with
  | .BT => .ok (accept0 dev)
  | .BL => .ok (accept0 dev)
  | .EV =>
    .error "TypeError: accept() missing 1 required positional argument: b"
  | .HP =>
    .error "TypeError: accept() missing 1 required positional argument: b"

/-- One round of `iterative` with the winner's accept dispatched exactly as
Python method resolution does it (`callAccept` in place of a total accept
function). -/
def roundStepPy (planFn : Dev → List ℚ → Dev)
    (shuffle : List (ℕ × Dev) → List (ℕ × Dev)) (tau : ℚ) (st : PS) :
    Except String RoundOut :=
  let st1 := planPhase planFn st
  let C := shuffle (contrib st1.devices)
  let sel := selectDevice tau C
  match sel.best with
  | none =>
    .ok { st := st1, winner := none,
          best_improvement := sel.best_improvement,
          objSq := sumSq (subL st1.x st1.p), giniVal := gini (burdensOf st1) }
  | some e =>
    match callAccept e.2 with
    | .error msg => .error msg
    | .ok r =>
      let st2 :=
        { st1 with
          devices := st1.devices.set e.1 r.1
          x := addL st1.x r.2 }
      .ok { st := st2, winner := some e.1,
            best_improvement := sel.best_improvement,
            objSq := sumSq (subL st2.x st2.p),
            giniVal := gini (burdensOf st2) }

/-- One device of `rerun`: `device.profile = device.initial_profile;
device.burden = 0`.  Reading an attribute that was never assigned raises
`AttributeError`. -/
def rerunDev (dev : Dev) : Except String Dev :=
  match dev.initial_profile with
  | some ip => .ok { dev with profile := ip, burden := 0 }
  | none =>
    .error "AttributeError: HeatPump object has no attribute initial_profile"

/-- The device loop of `rerun`, in population order, stopping at the first
raised exception. -/
def rerunDevs : List Dev → Except String (List Dev)
  | [] => .ok []
  | dev :: rest =>
    match rerunDev dev with
    | .error msg => .error msg
    | .ok dev2 =>
      match rerunDevs rest with
      | .error msg => .error msg
      | .ok rest2 => .ok (dev2 :: rest2)

/-- Embedding of `ProfileSteering.rerun` (lines 38–44): reset every device, then
`self.x = x`. -/
def rerun (st : PS) (x0 : List ℚ) : Except String PS :=
  match rerunDevs st.devices with
  | .error msg => .error msg
  | .ok devs => .ok { devices := devs, p := st.p, x := x0 }

/-- The aggregation loop of `ProfileSteering.init` (lines 25–36): starting
from `x = [0]*len(p)`, fold `x = list(map(operator.add, x, r))` over the
baselines `rs` returned by the devices' `init` calls in population order. -/
def psInitX (rs : List (List ℚ)) (p : List ℚ) : List ℚ :=
  rs.foldl (fun x r => addL x r) (List.replicate p.length 0)

/-- Constructor `HeatPump.__init__` (dev/heatpump.py lines 20–37): assigns `profile`,
`candidate`, `type`, `burden`, `candidate_improvement`,
`candidate_burden` — and, unlike the other three families, never assigns
`self.initial_profile`; `HeatPump.init`, `plan` and `accept` never assign
it either, so the attribute is missing for the object's whole lifetime. -/
def heatPumpNew : Dev :=
  { family := .HP, profile := [], candidate := [], burden := 0,
    candidate_improvement := 0, candidate_burden := 0,
    initial_profile := none }

/-- Constructor `Battery.__init__` (dev/battery.py lines 20–36): all three of
`Battery`, `Load` and `ElectricVehicle` assign `self.initial_profile = []`
in their constructors. -/
def batteryNew : Dev :=
  { family := .BT, profile := [], candidate := [], burden := 0,
    candidate_improvement := 0, candidate_burden := 0,
    initial_profile := some [] }

/-!
## C10 — non-positive `max_iters`
-/

/-- C10. With a non-positive `max_iters`, `range(0, max_iters)` is
empty, so `iterative` executes zero rounds: the returned state is the input
state unchanged (in particular `x` and every device are untouched, so no
`plan` or `accept` ran — the result does not depend on `planFn` or
`acceptFn` at all) and the three traces are empty. -/
theorem C10_nonpositive_max_iters (planFn : Dev → List ℚ → Dev)
    (acceptFn : Dev → Dev × List ℚ)
    (shuffle : List (ℕ × Dev) → List (ℕ × Dev))
    (e_min tau : ℚ) (max_iters : ℤ) (st : PS) (h : max_iters ≤ 0) :
    iterative planFn acceptFn shuffle e_min max_iters tau st
      = (st, [], [], []) := by
  have h0 : max_iters.toNat = 0 := Int.toNat_of_nonpos h
  unfold iterative iterativeCore
  rw [h0]
  rfl

/-- Witness for C10: a one-battery population, `max_iters = -1`. -/
theorem C10_witness :
    iterative (fun dv _ => dv) accept0 id 0 (-1) (1/2)
        ⟨[batteryNew], [0], [0]⟩
      = (⟨[batteryNew], [0], [0]⟩, [], [], []) :=
  C10_nonpositive_max_iters (fun dv _ => dv) accept0 id 0 (1/2) (-1)
    ⟨[batteryNew], [0], [0]⟩ (by decide)

/-!
## C7 — aggregation invariant of `init`
-/

lemma addL_length (a b : List ℚ) :
    (addL a b).length = min a.length b.length := by
  simp [addL]

lemma addL_getD (a b : List ℚ) (i : ℕ) (ha : i < a.length)
    (hb : i < b.length) :
    (addL a b).getD i 0 = a.getD i 0 + b.getD i 0 := by
  induction a generalizing b i with
  | nil => simp at ha
  | cons c t ih =>
    cases b with
    | nil => simp at hb
    | cons y s =>
      cases i with
      | zero => rfl
      | succ j =>
        simp only [List.length_cons, Nat.succ_lt_succ_iff] at ha hb
        exact ih s j ha hb

lemma replicate_getD (n i : ℕ) : (List.replicate n (0 : ℚ)).getD i 0 = 0 := by
  induction n generalizing i with
  | zero => simp [List.getD]
  | succ m ih =>
    cases i with
    | zero => rfl
    | succ j => exact ih j

lemma psInitX_fold (rs : List (List ℚ)) (p : List ℚ) (x : List ℚ)
    (hx : x.length = p.length) (h : ∀ r ∈ rs, r.length = p.length) :
    (rs.foldl (fun x r => addL x r) x).length = p.length
    ∧ ∀ i, i < p.length →
        (rs.foldl (fun x r => addL x r) x).getD i 0
          = x.getD i 0 + (rs.map (fun r => r.getD i 0)).sum := by
  induction rs generalizing x with
  | nil => simp [hx]
  | cons r rest ih =>
    have hr : r.length = p.length := h r (List.mem_cons_self r rest)
    have hlen : (addL x r).length = p.length := by
      rw [addL_length, hx, hr, min_self]
    have hrest : ∀ q ∈ rest, q.length = p.length :=
      fun q hq => h q (List.mem_cons_of_mem r hq)
    obtain ⟨ih1, ih2⟩ := ih (addL x r) hlen hrest
    refine ⟨ih1, fun i hi => ?_⟩
    rw [List.foldl_cons] at *
    rw [ih2 i hi, addL_getD x r i (hx ▸ hi) (hr ▸ hi), List.map_cons,
      List.sum_cons]
    ring

/-- C7. After the `init` aggregation loop, given that each device's
`init` returned a baseline of the target's length `H`, the aggregate `x`
has length `H` and equals the elementwise sum of the returned baselines. -/
theorem C7_init_aggregation (rs : List (List ℚ)) (p : List ℚ)
    (h : ∀ r ∈ rs, r.length = p.length) :
    (psInitX rs p).length = p.length
    ∧ ∀ i, i < p.length →
        (psInitX rs p).getD i 0 = (rs.map (fun r => r.getD i 0)).sum := by
  unfold psInitX
  obtain ⟨h1, h2⟩ :=
    psInitX_fold rs p (List.replicate p.length 0) (by simp) h
  refine ⟨h1, fun i hi => ?_⟩
  rw [h2 i hi, replicate_getD]
  ring

/-- Witness for C7: two baselines `[1,2]`, `[3,4]` over a length-2 target
give the elementwise sum `[4,6]`. -/
theorem C7_witness :
    (psInitX [[1, 2], [3, 4]] [0, 0]).length = 2
    ∧ (psInitX [[1, 2], [3, 4]] [0, 0]).getD 0 0 = 4
    ∧ (psInitX [[1, 2], [3, 4]] [0, 0]).getD 1 0 = 6 := by
  obtain ⟨h1, h2⟩ := C7_init_aggregation [[1, 2], [3, 4]] [0, 0] (by decide)
  refine ⟨h1, ?_, ?_⟩
  · rw [h2 0 (by decide)]
    decide
  · rw [h2 1 (by decide)]
    decide

/-!
## C1 — the coordinator's `accept()` call versus the EV/HP signature
-/

/-- An ElectricVehicle mid-run, with a strictly improving candidate, so it
is the (sole) contributing device and wins its round. -/
def evWinner : Dev :=
  { family := .EV, profile := [0], candidate := [1], burden := 0,
    candidate_improvement := 1, candidate_burden := 1,
    initial_profile := some [] }

/-- C1 (failing evaluation). In a round whose selected winner is an
ElectricVehicle, the coordinator's zero-argument call
`best_device.accept()` (profilesteering.py line 101) hits
`ElectricVehicle.accept(self, b)` (dev/electricvehicle.py line 124), which
requires the positional argument `b`: the round raises `TypeError` instead
of updating `x`, contradicting the claimed per-round conservation.  The
same holds for a HeatPump winner. -/
theorem C1_ev_winner_type_error :
    (selectDevice (1/2) (contrib [evWinner])).best = some (0, evWinner)
    ∧ roundStepPy (fun dv _ => dv) id (1/2) ⟨[evWinner], [0], [0]⟩
      = Except.error
          "TypeError: accept() missing 1 required positional argument: b" := by
  constructor
  · decide
  · decide

/-!
## C3 — `rerun` and the HeatPump's missing `initial_profile`
-/

/-- A HeatPump after its `init`/`plan`/`accept` cycle: `profile` and
`candidate` are set, but `initial_profile` was never assigned
(see `heatPumpNew`). -/
def hpAfterInit : Dev :=
  { heatPumpNew with profile := [5], candidate := [5] }

/-- C3 (failing evaluation). `rerun` executes
`device.profile = device.initial_profile` for every device; a HeatPump
never assigns `initial_profile` (dev/heatpump.py lines 20–37 set every
other attribute but not this one), so on any population containing a
HeatPump `rerun` raises `AttributeError` instead of resetting the
devices. -/
theorem C3_rerun_attribute_error :
    rerun ⟨[hpAfterInit], [0], [7]⟩ [0]
      = Except.error
          "AttributeError: HeatPump object has no attribute initial_profile" := by
  decide

/-!
## C4 — `sum_B = 0` with a nonempty contributing set
-/

/-- A contributing device whose candidate burden is zero (e.g. a Battery
whose candidate coincides with its initial profile). -/
def zeroBurdenDev : Dev :=
  { family := .BT, profile := [2], candidate := [0], burden := 0,
    candidate_improvement := 1, candidate_burden := 0,
    initial_profile := some [0] }

/-- C4 (failing evaluation). With a nonempty contributing set whose
candidate burdens sum to 0, the score computation divides by zero:
`score_pt1 = 0/0` is `nan`, the whole score is `nan`, and `nan < inf` is
false, so no device is ever selected — the round has *no* winner, instead
of the pure-improvement winner the spec requires.  (No exception is raised,
but the degenerate state is not handled either.) -/
theorem C4_zero_sumB_no_winner :
    sumB [(0, zeroBurdenDev)] = 0
    ∧ 0 < zeroBurdenDev.candidate_improvement
    ∧ (selectDevice (1/2) [(0, zeroBurdenDev)]).best = none := by
  decide

/-!
## Round-indexed views of the loop (for C2 and C5)
-/

/-- The coordinator state at the start of (0-based) round `k`, i.e. after
`k` full rounds have executed. -/
def stateAt (planFn : Dev → List ℚ → Dev) (acceptFn : Dev → Dev × List ℚ)
    (shuffle : List (ℕ × Dev) → List (ℕ × Dev)) (tau : ℚ) :
    PS → ℕ → PS
  | st, 0 => st
  | st, k + 1 =>
    stateAt planFn acceptFn shuffle tau
      (roundStep planFn acceptFn shuffle tau st).st k

/-- The data produced by round `k`. -/
def roundAt (planFn : Dev → List ℚ → Dev) (acceptFn : Dev → Dev × List ℚ)
    (shuffle : List (ℕ × Dev) → List (ℕ × Dev)) (tau : ℚ)
    (st : PS) (k : ℕ) : RoundOut :=
  roundStep planFn acceptFn shuffle tau
    (stateAt planFn acceptFn shuffle tau st k)

/-- The `best_improvement` tracker of round `k`: the winner's improvement,
or `0` when the round selects no winner. -/
def bestImpAt (planFn : Dev → List ℚ → Dev) (acceptFn : Dev → Dev × List ℚ)
    (shuffle : List (ℕ × Dev) → List (ℕ × Dev)) (tau : ℚ)
    (st : PS) (k : ℕ) : ℚ :=
  (roundAt planFn acceptFn shuffle tau st k).best_improvement

/-- The contributing set built in round `k` (before the shuffle). -/
def contribAt (planFn : Dev → List ℚ → Dev) (acceptFn : Dev → Dev × List ℚ)
    (shuffle : List (ℕ × Dev) → List (ℕ × Dev)) (tau : ℚ)
    (st : PS) (k : ℕ) : List (ℕ × Dev) :=
  contrib ((planPhase planFn
    (stateAt planFn acceptFn shuffle tau st k)).devices)

/-- The number of executed rounds of a run of at most `n` rounds, read off
as the length of the objective trace. -/
def roundsRun (planFn : Dev → List ℚ → Dev) (acceptFn : Dev → Dev × List ℚ)
    (shuffle : List (ℕ × Dev) → List (ℕ × Dev)) (tau e_min : ℚ)
    (st : PS) (n : ℕ) : ℕ :=
  (iterAux planFn acceptFn shuffle tau e_min st n).2.2.1.length

section LoopLemmas

variable (pf : Dev → List ℚ → Dev) (af : Dev → Dev × List ℚ)
  (sh : List (ℕ × Dev) → List (ℕ × Dev)) (tau e_min : ℚ)

lemma bestImpAt_zero (st : PS) :
    bestImpAt pf af sh tau st 0
      = (roundStep pf af sh tau st).best_improvement := rfl

lemma bestImpAt_succ (st : PS) (k : ℕ) :
    bestImpAt pf af sh tau st (k + 1)
      = bestImpAt pf af sh tau (roundStep pf af sh tau st).st k := rfl

lemma iterAux_succ_stop (st : PS) (n : ℕ)
    (h : (roundStep pf af sh tau st).best_improvement < e_min) :
    iterAux pf af sh tau e_min st (n + 1)
      = ((roundStep pf af sh tau st).st,
         impEntryOf (roundStep pf af sh tau st),
         [(roundStep pf af sh tau st).objSq],
         [(roundStep pf af sh tau st).giniVal]) := by
  simp [iterAux, h]

lemma iterAux_succ_go (st : PS) (n : ℕ)
    (h : ¬ (roundStep pf af sh tau st).best_improvement < e_min) :
    iterAux pf af sh tau e_min st (n + 1)
      = ((iterAux pf af sh tau e_min (roundStep pf af sh tau st).st n).1,
         impEntryOf (roundStep pf af sh tau st)
           ++ (iterAux pf af sh tau e_min
                (roundStep pf af sh tau st).st n).2.1,
         (roundStep pf af sh tau st).objSq
           :: (iterAux pf af sh tau e_min
                (roundStep pf af sh tau st).st n).2.2.1,
         (roundStep pf af sh tau st).giniVal
           :: (iterAux pf af sh tau e_min
                (roundStep pf af sh tau st).st n).2.2.2) := by
  simp [iterAux, h]

lemma roundsRun_succ_stop (st : PS) (n : ℕ)
    (h : (roundStep pf af sh tau st).best_improvement < e_min) :
    roundsRun pf af sh tau e_min st (n + 1) = 1 := by
  rw [roundsRun, iterAux_succ_stop pf af sh tau e_min st n h]
  rfl

lemma roundsRun_succ_go (st : PS) (n : ℕ)
    (h : ¬ (roundStep pf af sh tau st).best_improvement < e_min) :
    roundsRun pf af sh tau e_min st (n + 1)
      = roundsRun pf af sh tau e_min (roundStep pf af sh tau st).st n + 1 := by
  rw [roundsRun, iterAux_succ_go pf af sh tau e_min st n h]
  simp [roundsRun]

lemma roundsRun_le (n : ℕ) (st : PS) :
    roundsRun pf af sh tau e_min st n ≤ n := by
  induction n generalizing st with
  | zero => exact Nat.le_refl 0
  | succ m ih =>
    by_cases h : (roundStep pf af sh tau st).best_improvement < e_min
    · rw [roundsRun_succ_stop pf af sh tau e_min st m h]
      omega
    · rw [roundsRun_succ_go pf af sh tau e_min st m h]
      have := ih (roundStep pf af sh tau st).st
      omega

lemma roundsRun_last (n : ℕ) (st : PS)
    (h : roundsRun pf af sh tau e_min st n < n) :
    0 < roundsRun pf af sh tau e_min st n
    ∧ bestImpAt pf af sh tau st (roundsRun pf af sh tau e_min st n - 1)
        < e_min := by
  induction n generalizing st with
  | zero => omega
  | succ m ih =>
    by_cases hc : (roundStep pf af sh tau st).best_improvement < e_min
    · rw [roundsRun_succ_stop pf af sh tau e_min st m hc] at *
      exact ⟨Nat.one_pos, hc⟩
    · rw [roundsRun_succ_go pf af sh tau e_min st m hc] at *
      have hlt : roundsRun pf af sh tau e_min (roundStep pf af sh tau st).st m
          < m := by omega
      obtain ⟨h1, h2⟩ := ih (roundStep pf af sh tau st).st hlt
      refine ⟨by omega, ?_⟩
      have hk : roundsRun pf af sh tau e_min (roundStep pf af sh tau st).st m
            + 1 - 1
          = (roundsRun pf af sh tau e_min (roundStep pf af sh tau st).st m
            - 1) + 1 := by omega
      rw [hk, bestImpAt_succ]
      exact h2

lemma roundsRun_before (n : ℕ) (st : PS) (k : ℕ)
    (hk : k + 1 < roundsRun pf af sh tau e_min st n) :
    ¬ bestImpAt pf af sh tau st k < e_min := by
  induction n generalizing st k with
  | zero =>
    rw [roundsRun] at hk
    simp [iterAux] at hk
  | succ m ih =>
    by_cases hc : (roundStep pf af sh tau st).best_improvement < e_min
    · rw [roundsRun_succ_stop pf af sh tau e_min st m hc] at hk
      omega
    · rw [roundsRun_succ_go pf af sh tau e_min st m hc] at hk
      cases k with
      | zero => exact hc
      | succ j =>
        rw [bestImpAt_succ]
        exact ih (roundStep pf af sh tau st).st j (by omega)

lemma roundsRun_first_stop (n : ℕ) (st : PS) (k : ℕ) (hk : k < n)
    (hlt : bestImpAt pf af sh tau st k < e_min) :
    roundsRun pf af sh tau e_min st n ≤ k + 1 := by
  induction n generalizing st k with
  | zero => omega
  | succ m ih =>
    by_cases hc : (roundStep pf af sh tau st).best_improvement < e_min
    · rw [roundsRun_succ_stop pf af sh tau e_min st m hc]
      omega
    · rw [roundsRun_succ_go pf af sh tau e_min st m hc]
      cases k with
      | zero => exact absurd hlt hc
      | succ j =>
        rw [bestImpAt_succ] at hlt
        have := ih (roundStep pf af sh tau st).st j (by omega) hlt
        omega

lemma contribAt_nil_bestImp (hsh : ∀ l, List.Perm (sh l) l) (st : PS)
    (k : ℕ) (h : contribAt pf af sh tau st k = []) :
    bestImpAt pf af sh tau st k = 0
    ∧ (roundAt pf af sh tau st k).winner = none := by
  have hnil : sh [] = [] := List.Perm.eq_nil (hsh [])
  rw [contribAt] at h
  rw [bestImpAt, roundAt, roundStep]
  simp [h, hnil, selectDevice, sumB, sumE]

end LoopLemmas

/-!
## C2 — termination
-/

lemma iterative_obj_length (pf : Dev → List ℚ → Dev)
    (af : Dev → Dev × List ℚ) (sh : List (ℕ × Dev) → List (ℕ × Dev))
    (e_min tau : ℚ) (max_iters : ℤ) (st : PS) :
    (iterative pf af sh e_min max_iters tau st).2.2.1.length
      = roundsRun pf af sh tau e_min st max_iters.toNat := by
  simp [iterative, iterativeCore, roundsRun]

/-- C2 (amended). `iterative` executes at most `maxIters` rounds.  Each
round has a `best_improvement`: the winner's improvement, or `0` when the
round selects no winner — in particular whenever the contributing set `C`
is empty.  The loop stops early exactly at the first round whose
`best_improvement < eMin`; consequently an empty `C` terminates the run
when `eMin > 0` (then `0 < eMin`), but *not* when `eMin = 0`, which is the
correction to the claim (the claim asserted stopping on empty `C` for every
`eMin ≥ 0`). -/
theorem C2_termination (pf : Dev → List ℚ → Dev) (af : Dev → Dev × List ℚ)
    (sh : List (ℕ × Dev) → List (ℕ × Dev))
    (hsh : ∀ l, List.Perm (sh l) l) (e_min tau : ℚ) (max_iters : ℤ)
    (st : PS) (L : ℕ)
    (hL : L = (iterative pf af sh e_min max_iters tau st).2.2.1.length) :
    L ≤ max_iters.toNat
    ∧ (L < max_iters.toNat →
        0 < L ∧ bestImpAt pf af sh tau st (L - 1) < e_min)
    ∧ (∀ k, k + 1 < L → e_min ≤ bestImpAt pf af sh tau st k)
    ∧ (∀ k, k < max_iters.toNat → bestImpAt pf af sh tau st k < e_min →
        L ≤ k + 1)
    ∧ (∀ k, contribAt pf af sh tau st k = [] →
        bestImpAt pf af sh tau st k = 0) := by
  rw [iterative_obj_length] at hL
  subst hL
  refine ⟨roundsRun_le pf af sh tau e_min max_iters.toNat st,
    roundsRun_last pf af sh tau e_min max_iters.toNat st,
    fun k hk => not_lt.mp
      (roundsRun_before pf af sh tau e_min max_iters.toNat st k hk),
    fun k hk hlt =>
      roundsRun_first_stop pf af sh tau e_min max_iters.toNat st k hk hlt,
    fun k hk => (contribAt_nil_bestImp pf af sh tau hsh st k hk).1⟩

/-- C2 (counterexample to the claim as stated). With `eMin = 0` (a
value the claim admits, and the one `main.py` actually uses) and an empty
population, the contributing set is empty in round 0, yet the loop runs all
`maxIters = 2` rounds: `best_improvement = 0` is not `< 0`, so an empty `C`
does not terminate the loop, contradicting “stops … if and only if … or the
contributing set C becomes empty”. -/
theorem C2_counterexample :
    contribAt (fun dv _ => dv) accept0 id 0 ⟨[], [0], [0]⟩ 0 = []
    ∧ (iterative (fun dv _ => dv) accept0 id 0 2 0
        ⟨[], [0], [0]⟩).2.2.1.length = 2 := by
  constructor
  · decide
  · rw [iterative_obj_length]
    decide

/-- Witness for C2: the bound on executed rounds at a concrete input
(empty population, `eMin = 1`, `maxIters = 3`; the run stops after one
round). -/
theorem C2_witness :
    (iterative (fun dv _ => dv) accept0 id 1 3 0
        ⟨[], [0], [0]⟩).2.2.1.length ≤ (3 : ℤ).toNat
    ∧ (iterative (fun dv _ => dv) accept0 id 1 3 0
        ⟨[], [0], [0]⟩).2.2.1.length = 1 := by
  have h := C2_termination (fun dv _ => dv) accept0 id
    (fun l => List.Perm.refl l) 1 0 3 ⟨[], [0], [0]⟩ _ rfl
  refine ⟨h.1, ?_⟩
  rw [iterative_obj_length]
  decide

/-!
## C5 — trace lengths
-/

lemma impEntryOf_length_le (r : RoundOut) : (impEntryOf r).length ≤ 1 := by
  cases hw : r.winner <;> simp [impEntryOf, hw]

lemma impEntryOf_length_of_isSome (r : RoundOut) (h : r.winner.isSome) :
    (impEntryOf r).length = 1 := by
  cases hw : r.winner
  · rw [hw] at h
    simp at h
  · simp [impEntryOf, hw]

section TraceLemmas

variable (pf : Dev → List ℚ → Dev) (af : Dev → Dev × List ℚ)
  (sh : List (ℕ × Dev) → List (ℕ × Dev)) (tau e_min : ℚ)

lemma iterAux_gini_eq_obj (n : ℕ) (st : PS) :
    (iterAux pf af sh tau e_min st n).2.2.2.length
      = (iterAux pf af sh tau e_min st n).2.2.1.length := by
  induction n generalizing st with
  | zero => rfl
  | succ m ih =>
    by_cases hc : (roundStep pf af sh tau st).best_improvement < e_min
    · rw [iterAux_succ_stop pf af sh tau e_min st m hc]
      rfl
    · rw [iterAux_succ_go pf af sh tau e_min st m hc]
      simp [ih (roundStep pf af sh tau st).st]

lemma iterAux_imp_le_obj (n : ℕ) (st : PS) :
    (iterAux pf af sh tau e_min st n).2.1.length
      ≤ (iterAux pf af sh tau e_min st n).2.2.1.length := by
  induction n generalizing st with
  | zero => exact Nat.le_refl 0
  | succ m ih =>
    by_cases hc : (roundStep pf af sh tau st).best_improvement < e_min
    · rw [iterAux_succ_stop pf af sh tau e_min st m hc]
      exact impEntryOf_length_le (roundStep pf af sh tau st)
    · rw [iterAux_succ_go pf af sh tau e_min st m hc]
      have h1 := impEntryOf_length_le (roundStep pf af sh tau st)
      have h2 := ih (roundStep pf af sh tau st).st
      simp only [List.length_append, List.length_cons]
      omega

lemma iterAux_imp_eq_obj (n : ℕ) (st : PS)
    (hw : ∀ k, k < (iterAux pf af sh tau e_min st n).2.2.1.length →
      ((roundAt pf af sh tau st k).winner).isSome) :
    (iterAux pf af sh tau e_min st n).2.1.length
      = (iterAux pf af sh tau e_min st n).2.2.1.length := by
  induction n generalizing st with
  | zero => rfl
  | succ m ih =>
    by_cases hc : (roundStep pf af sh tau st).best_improvement < e_min
    · rw [iterAux_succ_stop pf af sh tau e_min st m hc] at hw ⊢
      exact impEntryOf_length_of_isSome (roundStep pf af sh tau st)
        (hw 0 (by simp))
    · rw [iterAux_succ_go pf af sh tau e_min st m hc] at hw ⊢
      have h0 : ((roundAt pf af sh tau st 0).winner).isSome :=
        hw 0 (by simp)
      have hrec := ih (roundStep pf af sh tau st).st (fun k hk => hw (k + 1)
        (by simp only [List.length_cons]; omega))
      simp only [List.length_append, List.length_cons,
        impEntryOf_length_of_isSome (roundStep pf af sh tau st) h0, hrec]
      omega

end TraceLemmas

/-- C5 (amended). Every executed round appends exactly one entry to the
objective and Gini traces, so those two traces have equal length, equal to
the number of executed rounds and at most `maxIters`; the improvement trace
gains an entry only in rounds that select a winner, so its length is at
most the number of executed rounds — with equality when every executed
round has a winner (the amendment: the claim asserted all three lengths are
always equal, but a round with no winner appends to the objective and Gini
traces only). -/
theorem C5_trace_lengths (pf : Dev → List ℚ → Dev) (af : Dev → Dev × List ℚ)
    (sh : List (ℕ × Dev) → List (ℕ × Dev)) (e_min tau : ℚ)
    (max_iters : ℤ) (st : PS) :
    (iterative pf af sh e_min max_iters tau st).2.2.2.length
      = (iterative pf af sh e_min max_iters tau st).2.2.1.length
    ∧ (iterative pf af sh e_min max_iters tau st).2.2.1.length
      ≤ max_iters.toNat
    ∧ (iterative pf af sh e_min max_iters tau st).2.1.length
      ≤ (iterative pf af sh e_min max_iters tau st).2.2.1.length
    ∧ ((∀ k, k < (iterative pf af sh e_min max_iters tau st).2.2.1.length →
          ((roundAt pf af sh tau st k).winner).isSome) →
        (iterative pf af sh e_min max_iters tau st).2.1.length
          = (iterative pf af sh e_min max_iters tau st).2.2.1.length) := by
  have hobj : (iterative pf af sh e_min max_iters tau st).2.2.1.length
      = (iterAux pf af sh tau e_min st max_iters.toNat).2.2.1.length := by
    simp [iterative, iterativeCore]
  have himp : (iterative pf af sh e_min max_iters tau st).2.1.length
      = (iterAux pf af sh tau e_min st max_iters.toNat).2.1.length := by
    simp [iterative, iterativeCore]
  have hgini : (iterative pf af sh e_min max_iters tau st).2.2.2.length
      = (iterAux pf af sh tau e_min st max_iters.toNat).2.2.2.length := by
    simp [iterative, iterativeCore]
  refine ⟨?_, ?_, ?_, ?_⟩
  · rw [hobj, hgini]
    exact iterAux_gini_eq_obj pf af sh tau e_min max_iters.toNat st
  · rw [hobj]
    exact roundsRun_le pf af sh tau e_min max_iters.toNat st
  · rw [hobj, himp]
    exact iterAux_imp_le_obj pf af sh tau e_min max_iters.toNat st
  · intro hw
    rw [hobj, himp]
    refine iterAux_imp_eq_obj pf af sh tau e_min max_iters.toNat st ?_
    intro k hk
    exact hw k (by rw [hobj]; exact hk)

/-- C5 (counterexample to the claim as stated). A round with no winner
(empty population) appends to the objective and Gini traces but not to the
improvement trace: after one executed round the improvement trace is empty
while the objective trace has one entry, so the three traces do not have
equal lengths. -/
theorem C5_counterexample :
    (iterative (fun dv _ => dv) accept0 id 1 1 0 ⟨[], [0], [0]⟩).2.1.length
      = 0
    ∧ (iterative (fun dv _ => dv) accept0 id 1 1 0
        ⟨[], [0], [0]⟩).2.2.1.length = 1 := by
  constructor
  · have : (iterativeCore (fun dv _ => dv) accept0 id 1 1 0
        ⟨[], [0], [0]⟩).2.1.length = 0 := by decide
    simpa [iterative] using this
  · rw [iterative_obj_length]
    decide

/-- The plan behaviour used in the C5 witness: every device proposes
improvement 1 at burden 1. -/
def pfW : Dev → List ℚ → Dev := fun dv _ =>
  { dv with candidate_improvement := 1, candidate_burden := 1 }

/-- The coordinator state used in the C5 witness: one battery. -/
def stW : PS := ⟨[batteryNew], [0], [0]⟩

/-- Witness for C5: a run whose single executed round selects a winner, so
the improvement trace has the same length as the objective trace. -/
theorem C5_witness :
    (iterative pfW accept0 id 2 3 0 stW).2.1.length
      = (iterative pfW accept0 id 2 3 0 stW).2.2.1.length := by
  apply (C5_trace_lengths pfW accept0 id 2 0 3 stW).2.2.2
  intro k hk
  rw [iterative_obj_length] at hk
  have h1 : roundsRun pfW accept0 id 0 2 stW (3 : ℤ).toNat = 1 := by decide
  have hk0 : k = 0 := by omega
  subst hk0
  decide

/-!
## C8 — tau boundaries of the selection
-/

/-- Modelled from the spec (§8 “Tau boundaries”, §4.4 step 7): “the device
with maximum raw improvement in C”, ties broken by the shuffled order
(first maximal element of the already-shuffled list). -/
def specMaxImp : List (ℕ × Dev) → Option (ℕ × Dev)
  | [] => none
  | e :: rest =>
    some (rest.foldl (fun best cur =>
      if best.2.candidate_improvement < cur.2.candidate_improvement
      then cur else best) e)

/-- Modelled from the spec (§4.4 step 6): the normalized burden
`normB = candidateBurden / (sumB/M)`. -/
def normBurden (sB : ℚ) (M : ℕ) (d : Dev) : ℚ :=
  d.candidate_burden / (sB / (M : ℚ))

/-- Modelled from the spec (§8 “Tau boundaries”): “the device with minimum
normalized burden in C”, ties broken by the shuffled order (first minimal
element). -/
def specMinNormB (C : List (ℕ × Dev)) : Option (ℕ × Dev) :=
  match C with
  | [] => none
  | e :: rest =>
    some (rest.foldl (fun best cur =>
      if normBurden (sumB C) C.length cur.2
           < normBurden (sumB C) C.length best.2
      then cur else best) e)

lemma score_fin (tau sB sE : ℚ) (M : ℕ) (d : Dev)
    (hB : (1 / (M : ℚ)) * sB ≠ 0) (hE : (1 / (M : ℚ)) * sE ≠ 0) :
    score tau sB sE M d
      = .fin (tau * (d.candidate_burden / ((1 / (M : ℚ)) * sB))
          - (1 - tau) * (d.candidate_improvement / ((1 / (M : ℚ)) * sE))) := by
  unfold score fdiv
  rw [if_pos hB, if_pos hE]
  rfl

lemma flt_fin_fin (p q : ℚ) : flt (.fin p) (.fin q) = decide (p < q) := rfl

lemma selStep_fin (tau sB sE : ℚ) (M : ℕ) (g : ℕ × Dev → ℚ)
    (hsc : ∀ e : ℕ × Dev, score tau sB sE M e.2 = .fin (g e))
    (b c : ℕ × Dev) :
    selStep tau sB sE M
        ⟨some b, b.2.candidate_improvement, .fin (g b)⟩ c
      = (if g c < g b
         then ⟨some c, c.2.candidate_improvement, .fin (g c)⟩
         else ⟨some b, b.2.candidate_improvement, .fin (g b)⟩) := by
  by_cases h : g c < g b <;> simp [selStep, hsc c, flt, h]

lemma selStep_first (tau sB sE : ℚ) (M : ℕ) (g : ℕ × Dev → ℚ)
    (hsc : ∀ e : ℕ × Dev, score tau sB sE M e.2 = .fin (g e))
    (e : ℕ × Dev) :
    selStep tau sB sE M ⟨none, 0, .posInf⟩ e
      = ⟨some e, e.2.candidate_improvement, .fin (g e)⟩ := by
  simp [selStep, hsc e, flt]

lemma selStep_foldl_fin (tau sB sE : ℚ) (M : ℕ) (g : ℕ × Dev → ℚ)
    (hsc : ∀ e : ℕ × Dev, score tau sB sE M e.2 = .fin (g e))
    (l : List (ℕ × Dev)) (b : ℕ × Dev) :
    l.foldl (selStep tau sB sE M)
        ⟨some b, b.2.candidate_improvement, .fin (g b)⟩
      = (⟨some (l.foldl (fun best cur => if g cur < g best then cur else best) b),
          (l.foldl (fun best cur =>
            if g cur < g best then cur else best) b).2.candidate_improvement,
          .fin (g (l.foldl (fun best cur =>
            if g cur < g best then cur else best) b))⟩ : Sel) := by
  induction l generalizing b with
  | nil => rfl
  | cons c t ih =>
    rw [List.foldl_cons, List.foldl_cons,
      selStep_fin tau sB sE M g hsc b c]
    by_cases h : g c < g b
    · rw [if_pos h, if_pos h]
      exact ih c
    · rw [if_neg h, if_neg h]
      exact ih b

lemma selectDevice_cons (tau : ℚ) (e : ℕ × Dev) (rest : List (ℕ × Dev))
    (g : ℕ × Dev → ℚ)
    (hsc : ∀ x : ℕ × Dev,
      score tau (sumB (e :: rest)) (sumE (e :: rest)) (e :: rest).length x.2
        = .fin (g x)) :
    (selectDevice tau (e :: rest)).best
      = some (rest.foldl (fun best cur =>
          if g cur < g best then cur else best) e) := by
  unfold selectDevice
  rw [List.foldl_cons,
    selStep_first tau (sumB (e :: rest)) (sumE (e :: rest))
      (e :: rest).length g hsc e,
    selStep_foldl_fin tau (sumB (e :: rest)) (sumE (e :: rest))
      (e :: rest).length g hsc rest e]

lemma pick_fold_ext (p q : (ℕ × Dev) → (ℕ × Dev) → Prop)
    [∀ x y, Decidable (p x y)] [∀ x y, Decidable (q x y)]
    (hiff : ∀ x y, p x y ↔ q x y) (l : List (ℕ × Dev)) (b : ℕ × Dev) :
    l.foldl (fun best cur => if p best cur then cur else best) b
      = l.foldl (fun best cur => if q best cur then cur else best) b := by
  induction l generalizing b with
  | nil => rfl
  | cons c t ih =>
    rw [List.foldl_cons, List.foldl_cons, if_congr (hiff b c) rfl rfl]
    exact ih _

lemma specMaxImp_cons (e : ℕ × Dev) (rest : List (ℕ × Dev)) :
    specMaxImp (e :: rest)
      = some (rest.foldl (fun best cur =>
          if best.2.candidate_improvement < cur.2.candidate_improvement
          then cur else best) e) := rfl

lemma specMinNormB_cons (e : ℕ × Dev) (rest : List (ℕ × Dev)) :
    specMinNormB (e :: rest)
      = some (rest.foldl (fun best cur =>
          if normBurden (sumB (e :: rest)) (e :: rest).length cur.2
              < normBurden (sumB (e :: rest)) (e :: rest).length best.2
          then cur else best) e) := rfl

/-- C8 (amended). For a fixed round with nonempty contributing set `C`
(every member has positive improvement) *and nonzero total candidate
burden* — the amendment forced by the counterexample, since `sum_B = 0`
makes every score `nan` and no winner is selected — the winner at `tau = 0`
is the first device of the shuffled `C` with maximal raw improvement, and
the winner at `tau = 1` is the first device with minimal normalized burden
`candidateBurden / (sumB/M)`. -/
theorem C8_tau_boundaries (C : List (ℕ × Dev)) (hne : C ≠ [])
    (himp : ∀ x ∈ C, 0 < x.2.candidate_improvement)
    (hB : sumB C ≠ 0) :
    (selectDevice 0 C).best = specMaxImp C
    ∧ (selectDevice 1 C).best = specMinNormB C := by
  cases C with
  | nil => exact absurd rfl hne
  | cons e rest =>
    have hM : ((e :: rest).length : ℚ) ≠ 0 :=
      Nat.cast_ne_zero.mpr (Nat.succ_ne_zero rest.length)
    have hMdiv : (1 / ((e :: rest).length : ℚ)) ≠ 0 := one_div_ne_zero hM
    have hEpos : 0 < sumE (e :: rest) := by
      apply List.sum_pos
      · intro x hx
        simp only [List.mem_map] at hx
        obtain ⟨y, hy, rfl⟩ := hx
        exact himp y hy
      · simp
    have hdenB : (1 / ((e :: rest).length : ℚ)) * sumB (e :: rest) ≠ 0 :=
      mul_ne_zero hMdiv hB
    have hdenE : (1 / ((e :: rest).length : ℚ)) * sumE (e :: rest) ≠ 0 :=
      mul_ne_zero hMdiv (ne_of_gt hEpos)
    have hdenEpos :
        0 < (1 / ((e :: rest).length : ℚ)) * sumE (e :: rest) := by
      have h1 : (0 : ℚ) < ((e :: rest).length : ℚ) := by
        have := Nat.succ_pos rest.length
        exact_mod_cast this
      have h2 : (0 : ℚ) < 1 / ((e :: rest).length : ℚ) := by positivity
      exact mul_pos h2 hEpos
    constructor
    · -- tau = 0: minimise the score ⇔ maximise the raw improvement
      rw [selectDevice_cons 0 e rest
        (fun x => 0 * (x.2.candidate_burden
            / ((1 / ((e :: rest).length : ℚ)) * sumB (e :: rest)))
          - (1 - 0) * (x.2.candidate_improvement
            / ((1 / ((e :: rest).length : ℚ)) * sumE (e :: rest))))
        (fun x => score_fin 0 (sumB (e :: rest)) (sumE (e :: rest))
          (e :: rest).length x.2 hdenB hdenE), specMaxImp_cons]
      congr 1
      apply pick_fold_ext
      intro x y
      have hg : ∀ z : ℕ × Dev,
          0 * (z.2.candidate_burden
              / ((1 / ((e :: rest).length : ℚ)) * sumB (e :: rest)))
            - (1 - 0) * (z.2.candidate_improvement
              / ((1 / ((e :: rest).length : ℚ)) * sumE (e :: rest)))
          = -(z.2.candidate_improvement
              / ((1 / ((e :: rest).length : ℚ)) * sumE (e :: rest))) := by
        intro z
        ring
      rw [hg x, hg y, neg_lt_neg_iff, div_lt_div_iff_of_pos_right hdenEpos]
    · -- tau = 1: minimise the score ⇔ minimise the normalized burden
      rw [selectDevice_cons 1 e rest
        (fun x => 1 * (x.2.candidate_burden
            / ((1 / ((e :: rest).length : ℚ)) * sumB (e :: rest)))
          - (1 - 1) * (x.2.candidate_improvement
            / ((1 / ((e :: rest).length : ℚ)) * sumE (e :: rest))))
        (fun x => score_fin 1 (sumB (e :: rest)) (sumE (e :: rest))
          (e :: rest).length x.2 hdenB hdenE), specMinNormB_cons]
      refine congrArg some ?_
      apply pick_fold_ext
      intro x y
      have hg : ∀ z : ℕ × Dev,
          1 * (z.2.candidate_burden
              / ((1 / ((e :: rest).length : ℚ)) * sumB (e :: rest)))
            - (1 - 1) * (z.2.candidate_improvement
              / ((1 / ((e :: rest).length : ℚ)) * sumE (e :: rest)))
          = normBurden (sumB (e :: rest)) (e :: rest).length z.2 := by
        intro z
        rw [normBurden, one_div_mul_eq_div]
        ring
      rw [hg x, hg y]

/-- A contributing device with improvement 1 and burden 0. -/
def devImp1 : Dev :=
  { family := .BT, profile := [1], candidate := [0], burden := 0,
    candidate_improvement := 1, candidate_burden := 0,
    initial_profile := some [0] }

/-- A contributing device with improvement 2 and burden 0. -/
def devImp2 : Dev :=
  { family := .BT, profile := [2], candidate := [0], burden := 0,
    candidate_improvement := 2, candidate_burden := 0,
    initial_profile := some [0] }

/-- C8 (counterexample to the claim as stated). A nonempty contributing
set whose burdens sum to zero: at `tau = 0` the claim says the winner is
the maximum-improvement device (`devImp2`), but every score is `nan`
(through `0 * (0/0)`), so no device is selected at all. -/
theorem C8_counterexample :
    (∀ x ∈ [(0, devImp1), (1, devImp2)], 0 < x.2.candidate_improvement)
    ∧ (selectDevice 0 [(0, devImp1), (1, devImp2)]).best = none
    ∧ specMaxImp [(0, devImp1), (1, devImp2)] = some (1, devImp2) := by
  refine ⟨by decide, by decide, by decide⟩

/-- A contributing device with improvement 1 and burden 2. -/
def devB2 : Dev :=
  { family := .BT, profile := [1], candidate := [0], burden := 0,
    candidate_improvement := 1, candidate_burden := 2,
    initial_profile := some [0] }

/-- A contributing device with improvement 3 and burden 1. -/
def devB1 : Dev :=
  { family := .EV, profile := [3], candidate := [0], burden := 0,
    candidate_improvement := 3, candidate_burden := 1,
    initial_profile := some [] }

/-- Witness for C8 at a concrete two-device contributing set with positive
total burden. -/
theorem C8_witness :
    (selectDevice 0 [(0, devB2), (1, devB1)]).best
      = specMaxImp [(0, devB2), (1, devB1)]
    ∧ (selectDevice 1 [(0, devB2), (1, devB1)]).best
      = specMinNormB [(0, devB2), (1, devB1)] :=
  C8_tau_boundaries [(0, devB2), (1, devB1)] (by decide) (by decide)
    (by decide)

/-!
## Device-level plan semantics (dev/battery.py, load.py,
electricvehicle.py, heatpump.py) — C9

The improvement a device reports is a difference of Euclidean norms — an
irrational real in general — so these embeddings carry the improvement in
`ℝ` while profiles and burdens stay rational.  The optimisation oracle
`opt.optAlg.OptAlg` is external to the repository (the design document
declares it an external collaborator), so each `plan` takes it as an
opaque function from the desired profile to the planned profile.
-/

/-- State of a `Battery` object as its `plan` uses it. -/
structure BatteryS where
  profile : List ℚ
  candidate : List ℚ
  burden : ℚ
  candidate_improvement : ℝ
  candidate_burden : ℚ
  initial_profile : List ℚ
  capacity : ℚ

/-- Embedding of `Battery.plan` (dev/battery.py lines 46–76): `p_m = profile − d`, the
candidate comes from the oracle, the improvement is
`‖profile − p_m‖₂ − ‖candidate − p_m‖₂`, and the burden is
`‖candidate − initial_profile‖₁ / capacity`.  Returns the updated object
and the returned `(improvement, burden)` pair. -/
noncomputable def batteryPlan (optSolve : List ℚ → List ℚ) (s : BatteryS)
    (d : List ℚ) : BatteryS × ℝ × ℚ :=
  ({ s with
      candidate := optSolve (subL s.profile d)
      candidate_improvement :=
        norm2 (subL s.profile (subL s.profile d))
          - norm2 (subL (optSolve (subL s.profile d)) (subL s.profile d))
      candidate_burden :=
        sumAbs (subL (optSolve (subL s.profile d)) s.initial_profile)
          / s.capacity },
   norm2 (subL s.profile (subL s.profile d))
     - norm2 (subL (optSolve (subL s.profile d)) (subL s.profile d)),
   sumAbs (subL (optSolve (subL s.profile d)) s.initial_profile)
     / s.capacity)

/-- State of a `Load` object as its `plan` uses it. -/
structure LoadS where
  profile : List ℚ
  candidate : List ℚ
  burden : ℚ
  candidate_improvement : ℝ
  candidate_burden : ℚ
  initial_profile : List ℚ

/-- Embedding of `Load.plan` (dev/load.py lines 46–62): the baseload offers no
flexibility, so the candidate is a copy of the current profile; the burden
is `‖candidate − initial_profile‖₁`.  (The source's
`assert len(d) == len(profile)` is the claim's matching-length
hypothesis.) -/
noncomputable def loadPlan (s : LoadS) (d : List ℚ) : LoadS × ℝ × ℚ :=
  ({ s with
      candidate := s.profile
      candidate_improvement :=
        norm2 (subL s.profile (subL s.profile d))
          - norm2 (subL s.profile (subL s.profile d))
      candidate_burden := sumAbs (subL s.profile s.initial_profile) },
   norm2 (subL s.profile (subL s.profile d))
     - norm2 (subL s.profile (subL s.profile d)),
   sumAbs (subL s.profile s.initial_profile))

/-- State of an `ElectricVehicle` object as its `plan` uses it. -/
structure EVS where
  profile : List ℚ
  candidate : List ℚ
  burden : ℚ
  candidate_improvement : ℝ
  candidate_burden : ℚ
  initial_profile : List ℚ
  startTime : ℕ
  endTime : ℕ

/-- An all-zero vector of length `n` with `w` written at indices
`[start, stop)` — lines 107–110 of dev/electricvehicle.py. -/
def scatterWindow (n start stop : ℕ) (w : List ℚ) : List ℚ :=
  (List.range n).map (fun i =>
    if start ≤ i ∧ i < stop then w.getD (i - start) 0 else 0)

/-- Embedding of `ElectricVehicle.plan` (dev/electricvehicle.py lines 72–120): the
oracle plans only the connection window `p_m[startTime:endTime]`, the
candidate embeds that plan into a zero vector, and the candidate burden is
the constant placeholder `1`. -/
noncomputable def evPlan (optSolve : List ℚ → List ℚ) (s : EVS)
    (d : List ℚ) : EVS × ℝ × ℚ :=
  ({ s with
      candidate := scatterWindow (subL s.profile d).length s.startTime
        s.endTime (optSolve (((subL s.profile d).drop s.startTime).take
          (s.endTime - s.startTime)))
      candidate_improvement :=
        norm2 (subL s.profile (subL s.profile d))
          - norm2 (subL (scatterWindow (subL s.profile d).length s.startTime
              s.endTime (optSolve (((subL s.profile d).drop s.startTime).take
                (s.endTime - s.startTime)))) (subL s.profile d))
      candidate_burden := 1 },
   norm2 (subL s.profile (subL s.profile d))
     - norm2 (subL (scatterWindow (subL s.profile d).length s.startTime
         s.endTime (optSolve (((subL s.profile d).drop s.startTime).take
           (s.endTime - s.startTime)))) (subL s.profile d)),
   1)

/-- State of a `HeatPump` object as its `plan` uses it (note: no
`initial_profile` attribute, see `heatPumpNew`). -/
structure HPS where
  profile : List ℚ
  candidate : List ℚ
  burden : ℚ
  candidate_improvement : ℝ
  candidate_burden : ℚ
  heatdemand : List ℚ

/-- Embedding of `HeatPump.plan` (dev/heatpump.py lines 57–86): like the battery but
the oracle also receives the heat demand, and the candidate burden is the
constant placeholder `1`. -/
noncomputable def hpPlan (optSolve : List ℚ → List ℚ → List ℚ) (s : HPS)
    (d : List ℚ) : HPS × ℝ × ℚ :=
  ({ s with
      candidate := optSolve (subL s.profile d) s.heatdemand
      candidate_improvement :=
        norm2 (subL s.profile (subL s.profile d))
          - norm2 (subL (optSolve (subL s.profile d) s.heatdemand)
              (subL s.profile d))
      candidate_burden := 1 },
   norm2 (subL s.profile (subL s.profile d))
     - norm2 (subL (optSolve (subL s.profile d) s.heatdemand)
         (subL s.profile d)),
   1)

lemma subL_subL_cancel (a b : List ℚ) (h : b.length = a.length) :
    subL a (subL a b) = b := by
  induction a generalizing b with
  | nil =>
    cases b with
    | nil => rfl
    | cons y s => simp at h
  | cons x t ih =>
    cases b with
    | nil => simp at h
    | cons y s =>
      simp only [List.length_cons, Nat.succ.injEq] at h
      show (x - (x - y)) :: subL t (subL t s) = y :: s
      rw [ih s h]
      norm_num

/-- C9. For each of the four device families, `plan(d)` leaves
`currentProfile` unchanged and returns
`improvement = ‖currentProfile − p_m‖₂ − ‖candidate − p_m‖₂` where
`p_m = currentProfile − d` and `candidate` is the stored planner result;
when `d` matches the profile's length, `‖currentProfile − p_m‖₂ = ‖d‖₂`;
and a fixed load's improvement is exactly `0` (so never positive). -/
theorem C9_plan_contract :
    (∀ (optSolve : List ℚ → List ℚ) (s : BatteryS) (d : List ℚ),
      (batteryPlan optSolve s d).1.profile = s.profile
      ∧ (batteryPlan optSolve s d).2.1
          = norm2 (subL s.profile (subL s.profile d))
            - norm2 (subL ((batteryPlan optSolve s d).1.candidate)
                (subL s.profile d))
      ∧ (d.length = s.profile.length →
          (batteryPlan optSolve s d).2.1
            = norm2 d - norm2 (subL (optSolve (subL s.profile d))
                (subL s.profile d))))
    ∧ (∀ (s : LoadS) (d : List ℚ), d.length = s.profile.length →
        (loadPlan s d).1.profile = s.profile ∧ (loadPlan s d).2.1 = 0)
    ∧ (∀ (optSolve : List ℚ → List ℚ) (s : EVS) (d : List ℚ),
        (evPlan optSolve s d).1.profile = s.profile
        ∧ (evPlan optSolve s d).2.1
            = norm2 (subL s.profile (subL s.profile d))
              - norm2 (subL ((evPlan optSolve s d).1.candidate)
                  (subL s.profile d)))
    ∧ (∀ (optSolve : List ℚ → List ℚ → List ℚ) (s : HPS) (d : List ℚ),
        (hpPlan optSolve s d).1.profile = s.profile
        ∧ (hpPlan optSolve s d).2.1
            = norm2 (subL s.profile (subL s.profile d))
              - norm2 (subL ((hpPlan optSolve s d).1.candidate)
                  (subL s.profile d))) := by
  refine ⟨?_, ?_, ?_, ?_⟩
  · intro optSolve s d
    refine ⟨rfl, rfl, ?_⟩
    intro h
    show norm2 (subL s.profile (subL s.profile d)) - _ = norm2 d - _
    rw [subL_subL_cancel s.profile d h]
  · intro s d h
    exact ⟨rfl, sub_self _⟩
  · intro optSolve s d
    exact ⟨rfl, rfl⟩
  · intro optSolve s d
    exact ⟨rfl, rfl⟩

/-- Witness for C9 at concrete inputs: a battery with profile `[2]` and a
load with profile `[3]`, both planned against `d = [1]`. -/
theorem C9_witness :
    (batteryPlan (fun _ => [1])
        ⟨[2], [], 0, 0, 0, [0], 14000⟩ [1]).1.profile = [2]
    ∧ (loadPlan ⟨[3], [], 0, 0, 0, [3]⟩ [1]).2.1 = 0 :=
  ⟨(C9_plan_contract.1 (fun _ => [1])
      ⟨[2], [], 0, 0, 0, [0], 14000⟩ [1]).1,
   (C9_plan_contract.2.1 ⟨[3], [], 0, 0, 0, [3]⟩ [1] (by decide)).2⟩

end FairerPS
